import Mathlib

/-!
# Verification of the WhatsApp sales-agent funnel / batching / post-processing core

Shallow embedding, in Lean 4, of the orchestration core of the repository:

* `src/unnamed/part_000` — `SalesFunnelService` (funnel stages, upsell/downsell
  opportunity logic, `analyzeUpsellResponse`);
* `src/memoryManager.js` — `saveMemoryEntry` / `getLatestMemoryEntry` (the
  persistent key/value memory per conversation);
* `src/aiHandler.js` — `_extractSpecialCommands` / `_removeSpecialCommands`
  (directive extraction and stripping);
* `src/chatHandler.js` — message grouping / processing mutual exclusion and
  `_splitMessage` / `_splitTextChunks`.

Strings are modelled as `List Char`; JavaScript numbers that only ever carry
exact decimal fractions (the confidence scores, discounts) are modelled as `ℚ`;
timestamps are modelled as integer clocks.  JavaScript's `toLowerCase` is
modelled on the ASCII and Latin-1 letters, which covers every character
appearing in the keyword tables of the source.
-/

namespace SalesAgent

/-- Shorthand: a JS string as a list of characters. -/
def lit (s : String) : List Char := s.toList

/-- `String.prototype.toLowerCase`, restricted to ASCII (`A`–`Z`) and the
Latin-1 uppercase letters (`À`–`Þ` except `×`).  Every character appearing in
the source's keyword lists lies in this fragment. -/
def jsLower (c : Char) : Char :=
  if 65 ≤ c.toNat ∧ c.toNat ≤ 90 then Char.ofNat (c.toNat + 32)
  else if 0xC0 ≤ c.toNat ∧ c.toNat ≤ 0xDE ∧ c.toNat ≠ 0xD7 then Char.ofNat (c.toNat + 32)
  else c

/-- ASCII-only case folding, the canonicalisation a JavaScript regex without the
`u` flag applies when matching an ASCII pattern character case-insensitively. -/
def asciiLower (c : Char) : Char :=
  if 65 ≤ c.toNat ∧ c.toNat ≤ 90 then Char.ofNat (c.toNat + 32) else c

/-- `pat` is a prefix of `s` (character-exact). -/
def isPrefixL : List Char → List Char → Bool
  | [], _ => true
  | _ :: _, [] => false
  | p :: ps, c :: cs => p = c && isPrefixL ps cs

/-- `String.prototype.includes needle`: `needle` occurs contiguously in `hay`. -/
def sIncludes (hay needle : List Char) : Bool :=
  match hay with
  | [] => isPrefixL needle []
  | _ :: t => isPrefixL needle hay || sIncludes t needle

/-- `String.prototype.indexOf needle`: index of the first occurrence, `-1` if
absent. -/
def jsIndexOf (hay needle : List Char) : Int :=
  match hay with
  | [] => if needle = [] then 0 else -1
  | _ :: t =>
    if isPrefixL needle hay then 0
    else
      let r := jsIndexOf t needle
      if r = -1 then -1 else r + 1

/-! ## `analyzeUpsellResponse` (src/unnamed/part_000, lines 1712–1809) -/

/-- The `positiveIndicators` list of `analyzeUpsellResponse`. -/
def positiveIndicators : List (List Char) :=
  [lit "sim", lit "quero", lit "aceito", lit "concordo", lit "interessante",
   lit "gostei", lit "vamos", lit "ótimo", lit "excelente", lit "perfeito",
   lit "bom", lit "legal", lit "parece bom", lit "me interessa", lit "bacana",
   lit "gostaria"]

/-- The `negativeIndicators` list of `analyzeUpsellResponse`. -/
def negativeIndicators : List (List Char) :=
  [lit "não", lit "agora não", lit "talvez depois", lit "muito caro", lit "caro",
   lit "sem condições", lit "preciso pensar", lit "não tenho interesse",
   lit "não quero", lit "recuso", lit "não posso", lit "não consigo",
   lit "deixa pra depois", lit "outra hora", lit "no momento não"]

/-- Number of indicators from `inds` that occur in `message` (the source counts
each matching indicator once, via `forEach` + `includes`). -/
def countMatches (message : List Char) (inds : List (List Char)) : Nat :=
  inds.countP (fun kw => sIncludes message kw)

/-- Result record of `analyzeUpsellResponse`. -/
structure OfferResponse where
  accepted : Bool
  confidence : ℚ
deriving DecidableEq, Repr

/-- `analyzeUpsellResponse(userMessage)`.  `none` models a `null`/`undefined`
argument; `some []` the empty string (both falsy in JS). -/
def analyzeUpsellResponse : Option (List Char) → OfferResponse
  | none => ⟨false, 0⟩
  | some userMessage =>
    if userMessage = [] then ⟨false, 0⟩
    else
      let message := userMessage.map jsLower
      let positiveMatches := countMatches message positiveIndicators
      let negativeMatches := countMatches message negativeIndicators
      if positiveMatches > 0 ∨ negativeMatches > 0 then
        if positiveMatches > 0 ∧ negativeMatches > 0 then
          if jsIndexOf message (lit "não") < jsIndexOf message (lit "interessante") then
            ⟨false, 0.6⟩
          else
            ⟨decide (positiveMatches > negativeMatches), 0.6⟩
        else if positiveMatches > 0 then
          ⟨true, min (0.3 + positiveMatches * 0.2) 0.95⟩
        else
          ⟨false, min (0.3 + negativeMatches * 0.2) 0.95⟩
      else
        if sIncludes message (lit "?") then ⟨false, 0.65⟩
        else if message.length < 10 then ⟨false, 0.5⟩
        else ⟨false, 0.55⟩

/-! ## Directive extraction and stripping (src/aiHandler.js, lines 576–614)

The command pattern is `/!(prova_social|checkout|etapa|suporte)(?::\s*([a-z0-9_-]+))?/gi`.
Without the `u` flag, case-insensitive matching of the ASCII pattern characters
is plain ASCII case folding, and the `i` flag also makes the id class
`[a-z0-9_-]` accept uppercase ASCII letters. -/

/-- The character set of JavaScript's `\s` (which is also the set trimmed by
`String.prototype.trim`). -/
def isJsSpace (c : Char) : Bool :=
  c.toNat = 32 || c.toNat = 9 || c.toNat = 10 || c.toNat = 11 || c.toNat = 12 ||
  c.toNat = 13 || c.toNat = 0xA0 || c.toNat = 0x1680 ||
  (0x2000 ≤ c.toNat && c.toNat ≤ 0x200A) || c.toNat = 0x2028 || c.toNat = 0x2029 ||
  c.toNat = 0x202F || c.toNat = 0x205F || c.toNat = 0x3000 || c.toNat = 0xFEFF

/-- A character matching the class `[a-z0-9_-]` under the regex's `i` flag. -/
def isIdChar (c : Char) : Bool :=
  (97 ≤ c.toNat && c.toNat ≤ 122) || (65 ≤ c.toNat && c.toNat ≤ 90) ||
  (48 ≤ c.toNat && c.toNat ≤ 57) || c.toNat = 95 || c.toNat = 45

/-- Case-insensitive match of the (lowercase ASCII) pattern `pat` against a
prefix of `s`; returns the remainder of `s` on success. -/
def matchCI : List Char → List Char → Option (List Char)
  | [], s => some s
  | _ :: _, [] => none
  | p :: ps, c :: cs => if asciiLower c = p then matchCI ps cs else none

/-- The alternation `(prova_social|checkout|etapa|suporte)`, tried in source
order; returns the canonical lowercased name (what `match[1].toLowerCase()`
yields) together with the remainder. -/
def matchAnyName (s : List Char) : Option (List Char × List Char) :=
  match matchCI (lit "prova_social") s with
  | some r => some (lit "prova_social", r)
  | none =>
    match matchCI (lit "checkout") s with
    | some r => some (lit "checkout", r)
    | none =>
      match matchCI (lit "etapa") s with
      | some r => some (lit "etapa", r)
      | none =>
        match matchCI (lit "suporte") s with
        | some r => some (lit "suporte", r)
        | none => none

/-- The optional group `(?::\s*([a-z0-9_-]+))?`: a colon, greedy whitespace,
then one or more id characters (the two character classes are disjoint, so no
regex backtracking arises).  Returns the captured id and the remainder; `none`
when the group does not participate. -/
def matchIdPart : List Char → Option (List Char × List Char)
  | ':' :: cs =>
    let rest := cs.dropWhile isJsSpace
    let idc := rest.takeWhile isIdChar
    if idc = [] then none else some (idc, rest.drop idc.length)
  | _ => none

/-- Fuel-indexed scan of the global regex over the text, as performed by
repeated `exec` calls: leftmost non-overlapping matches, resuming scanning
right after each match.  `fuel ≥ length of the text` guarantees completion
(each step consumes at least one character). -/
def extractAux : Nat → List Char → List (List Char × List Char)
  | 0, _ => []
  | _ + 1, [] => []
  | fuel + 1, c :: cs =>
    if c = '!' then
      match matchAnyName cs with
      | some (name, r1) =>
        match matchIdPart r1 with
        | some (idc, r2) => (name, idc) :: extractAux fuel r2
        | none => (name, []) :: extractAux fuel r1
      | none => extractAux fuel cs
    else extractAux fuel cs

/-- `_extractSpecialCommands(content)`: all command matches in order, as
`(type, id)` pairs (`type` lowercased, `id` empty when the optional group is
absent). -/
def extractSpecialCommands (content : List Char) : List (List Char × List Char) :=
  extractAux content.length content

/-- Fuel-indexed version of `content.replace(commandPattern, "")`: the scan of
`extractAux` with every match deleted and all other characters kept. -/
def removeAux : Nat → List Char → List Char
  | 0, s => s
  | _ + 1, [] => []
  | fuel + 1, c :: cs =>
    if c = '!' then
      match matchAnyName cs with
      | some (_, r1) =>
        match matchIdPart r1 with
        | some (_, r2) => removeAux fuel r2
        | none => removeAux fuel r1
      | none => c :: removeAux fuel cs
    else c :: removeAux fuel cs

/-- The first `.replace` of `_removeSpecialCommands`: delete every command
match. -/
def removeCommandText (content : List Char) : List Char :=
  removeAux content.length content

/-- The replacement `/\n{3,}/g → "\n\n"`: every maximal run of three or more
newlines becomes exactly two.  `run` counts the newlines immediately before
the current position; from the third one on, newlines are dropped. -/
def collapseGo (run : Nat) : List Char → List Char
  | [] => []
  | c :: cs =>
    if c = '\n' then
      if 2 ≤ run then collapseGo (run + 1) cs
      else '\n' :: collapseGo (run + 1) cs
    else c :: collapseGo 0 cs

/-- The second `.replace` of `_removeSpecialCommands`. -/
def collapseNewlines (s : List Char) : List Char := collapseGo 0 s

/-- `String.prototype.trim`. -/
def jsTrim (s : List Char) : List Char :=
  ((s.dropWhile isJsSpace).reverse.dropWhile isJsSpace).reverse

/-- `_removeSpecialCommands(content)`: remove every command occurrence, then
collapse 3+ newlines to 2, then trim. -/
def removeSpecialCommands (content : List Char) : List Char :=
  jsTrim (collapseNewlines (removeCommandText content))

/-! ## Conversation memory (src/memoryManager.js, lines 264–314 and 373–423)

`saveMemoryEntry(phone, key, value, type)` upserts the entry with the given
*key and type*; `getLatestMemoryEntry(phone, type)` returns the most recently
updated entry of the given *type* (the `where` clause of the Prisma query
filters on `type` only).  Values are serialised to strings on save and
de-serialised by `_tryParseJson` on read; for the value shapes stored by the
funnel service (non-JSON plain strings, plain objects, `null`) this
round-trips, so values are modelled directly.  Timestamps are modelled by a
per-store logical clock that increases at every save. -/

/-- An upsell opportunity record of `UPSELL_OPPORTUNITIES`
(src/unnamed/part_000, lines 189–228). -/
structure UpsellOpp where
  targetPlanId : String
  title : String
  pitch : String
  valueProposition : String
  timing : String
  discount : ℚ
  limitedTime : String
deriving DecidableEq, Repr

/-- A downsell alternative record of `DOWNSELL_ALTERNATIVES`
(src/unnamed/part_000, lines 234–266). -/
structure DownsellOpp where
  targetPlanId : String
  title : String
  pitch : String
  valueProposition : String
  discount : ℚ
  limitedTime : String
deriving DecidableEq, Repr

/-- A de-serialised memory value.  `date` models an ISO date string by its
millisecond value; `stTransition` is the stage-transition analytics record
(whose `from` field holds whatever value the stage entry carried). -/
inductive MemValue where
  | null : MemValue
  | str : String → MemValue
  | date : Int → MemValue
  | upsell : UpsellOpp → MemValue
  | downsell : DownsellOpp → MemValue
  | rejection : (targetPlanId : String) → (rejectionTime : Int) → MemValue
  | stTransition : MemValue → (toStage : String) → (timestamp : Int) → MemValue
  | purchaseRec : (productId : String) → (value : ℚ) → (purchaseDate : Int) → MemValue
  | interaction : (kind : String) → (purchaseDate : Int) → (productId : String) → MemValue
deriving DecidableEq, Repr

/-- JavaScript truthiness of a de-serialised memory value (`null` and the
empty string are falsy). -/
def MemValue.truthy : MemValue → Bool
  | .null => false
  | .str s => s ≠ ""
  | _ => true

/-- `value.targetPlanId` (property access on an opportunity object).  For any
other value the JS access yields `undefined`; that case, modelled as `""`, is
not reachable in the states considered. -/
def MemValue.targetPlanIdOf : MemValue → String
  | .upsell o => o.targetPlanId
  | .downsell o => o.targetPlanId
  | _ => ""

/-- `rejectedUpsell.target_plan_id`. -/
def MemValue.rejectedTargetOf : MemValue → String
  | .rejection tp _ => tp
  | _ => ""

/-- `rejectedUpsell.rejection_time` as a date. -/
def MemValue.rejectionTimeOf : MemValue → Int
  | .rejection _ t => t
  | _ => 0

/-- `new Date(value.purchase_date || value)`: the purchase date carried by a
last-interaction (or purchase) value, or the value itself when it is a date
string.  Other shapes give an invalid date, not reachable here. -/
def MemValue.purchaseDateOf : MemValue → Int
  | .interaction _ pd _ => pd
  | .purchaseRec _ _ pd => pd
  | .date ms => ms
  | _ => 0

/-- A string value used as an object key (`UPSELL_OPPORTUNITIES[productId]`).
A non-string value would miss every key of the catalog, exactly as `""`
does. -/
def MemValue.asKey : MemValue → String
  | .str s => s
  | _ => ""

/-- A row of the `memoryEntry` table for one conversation. -/
structure MemEntry where
  key : String
  type : String
  value : MemValue
  updatedAt : Nat
deriving DecidableEq, Repr

/-- The memory of one conversation: its rows plus a logical clock. -/
structure Store where
  entries : List MemEntry
  now : Nat
deriving DecidableEq, Repr

/-- Update the first row with the given key and type (Prisma `update` on the
row found by `findFirst`). -/
def updateFirst (key ty : String) (v : MemValue) (now : Nat) :
    List MemEntry → List MemEntry
  | [] => []
  | e :: es =>
    if e.key = key ∧ e.type = ty then { e with value := v, updatedAt := now } :: es
    else e :: updateFirst key ty v now es

/-- `saveMemoryEntry(phone, key, value, type)`: update the existing row with
this key and type, or append a new one. -/
def saveMemoryEntry (s : Store) (key : String) (value : MemValue) (ty : String) : Store :=
  if s.entries.any (fun e => e.key = key && e.type = ty) then
    { entries := updateFirst key ty value s.now s.entries, now := s.now + 1 }
  else
    { entries := s.entries ++ [⟨key, ty, value, s.now⟩], now := s.now + 1 }

/-- The row with the greatest `updatedAt` (the head of the `orderBy updatedAt
desc` query). -/
def latestOf : List MemEntry → Option MemEntry
  | [] => none
  | e :: es =>
    match latestOf es with
    | none => some e
    | some e' => if e'.updatedAt > e.updatedAt then some e' else some e

/-- `getLatestMemoryEntry(phone, type)`: the value of the most recently
updated row **of the given type** — the lookup filters on the `type` column,
not on the key. -/
def getLatestMemoryEntry (s : Store) (ty : String) : Option MemValue :=
  (latestOf (s.entries.filter (fun e => e.type = ty))).map (fun e => e.value)

/-! ## Sales funnel service (src/unnamed/part_000) -/

/-- `Object.values(FUNNEL_STAGES)`, in source order (18 stages). -/
def FUNNEL_STAGES : List String :=
  ["greeting", "qualification", "need_discovery", "pain_point_exploration",
   "solution_presentation", "product_demonstration", "value_proposition",
   "proof_and_credibility", "objection_handling", "price_discussion", "closing",
   "checkout", "post_purchase_followup", "upsell", "downsell", "cross_sell",
   "reactivation", "feedback"]

/-- The sole `basic_plan` upsell opportunity. -/
def upsellBasicToPro : UpsellOpp :=
  { targetPlanId := "pro_plan"
    title := "Upgrade para Plano Pro"
    pitch := "Com o Plano Pro, você terá acesso a todas as funcionalidades avançadas como [FEATURES], que podem aumentar seus resultados em até 47% com base nos dados de clientes similares."
    valueProposition := "O investimento adicional de apenas R$X/mês se paga em Y semanas considerando o aumento de produtividade."
    timing := "após_7_dias"
    discount := 0.15
    limitedTime := "72h" }

/-- First `pro_plan` upsell opportunity. -/
def upsellProToEnterprise : UpsellOpp :=
  { targetPlanId := "enterprise_plan"
    title := "Upgrade para Plano Enterprise"
    pitch := "O Plano Enterprise inclui recursos exclusivos como [EXCLUSIVE_FEATURES], além de suporte prioritário e consultoria estratégica mensal."
    valueProposition := "Empresas que utilizam nosso plano Enterprise aumentam o ROI em média 3.2x comparado ao Pro."
    timing := "após_30_dias"
    discount := 0.1
    limitedTime := "7d" }

/-- Second `pro_plan` upsell opportunity. -/
def upsellProToTraining : UpsellOpp :=
  { targetPlanId := "addon_training"
    title := "Treinamento Personalizado"
    pitch := "Complementando seu Plano Pro, oferecemos um programa de treinamento personalizado para sua equipe maximizar o uso da plataforma."
    valueProposition := "Equipes que passam por nosso treinamento personalizado reportam 68% mais resultados nos primeiros 60 dias."
    timing := "após_3_dias"
    discount := 0.2
    limitedTime := "48h" }

/-- `UPSELL_OPPORTUNITIES`, an object indexed by purchased plan id; an absent
key behaves as the empty list. -/
def UPSELL_OPPORTUNITIES (productId : String) : List UpsellOpp :=
  if productId = "basic_plan" then [upsellBasicToPro]
  else if productId = "pro_plan" then [upsellProToEnterprise, upsellProToTraining]
  else []

/-- The `pro_plan` downsell alternative. -/
def downsellProPlan : DownsellOpp :=
  { targetPlanId := "basic_plus_plan"
    title := "Plano Básico Plus"
    pitch := "Entendo que o Plano Pro pode não ser o ideal neste momento. O Básico Plus oferece os recursos essenciais do Pro, como [KEY_FEATURES], mantendo um investimento mais acessível."
    valueProposition := "Você obtém 70% dos benefícios do Pro por apenas 50% do investimento."
    discount := 0.25
    limitedTime := "24h" }

/-- The `enterprise_plan` downsell alternative. -/
def downsellEnterprisePlan : DownsellOpp :=
  { targetPlanId := "pro_plus_plan"
    title := "Plano Pro Plus"
    pitch := "Pensando em suas necessidades, desenvolvemos o Pro Plus, que inclui os principais recursos do Enterprise, como [KEY_FEATURES], sem o investimento completo do Enterprise."
    valueProposition := "O Pro Plus entrega 80% do valor do Enterprise por 60% do investimento."
    discount := 0.15
    limitedTime := "48h" }

/-- The `addon_training` downsell alternative. -/
def downsellAddonTraining : DownsellOpp :=
  { targetPlanId := "addon_quickstart"
    title := "Quickstart Guide Premium"
    pitch := "Como alternativa ao treinamento completo, nosso Quickstart Guide Premium oferece um conjunto de vídeos e documentação avançada para auto-aprendizado."
    valueProposition := "Economize 70% comparado ao treinamento personalizado e ainda obtenha resultados significativos."
    discount := 0.3
    limitedTime := "24h" }

/-- `DOWNSELL_ALTERNATIVES`, indexed by the rejected upsell's target plan id. -/
def DOWNSELL_ALTERNATIVES (upsellPlanId : String) : Option DownsellOpp :=
  if upsellPlanId = "pro_plan" then some downsellProPlan
  else if upsellPlanId = "enterprise_plan" then some downsellEnterprisePlan
  else if upsellPlanId = "addon_training" then some downsellAddonTraining
  else none

/-- The `upsellTiming` options of the service constructor. -/
structure UpsellTiming where
  default : Nat
  premium_threshold : Nat
  quick_wins : Nat
deriving DecidableEq, Repr

/-- The options of `SalesFunnelService` (constructor defaults in
`defaultOptions`). -/
structure FunnelOptions where
  defaultStage : String
  stageAdvancementThreshold : ℚ
  enableUpsellDownsell : Bool
  upsellTiming : UpsellTiming
deriving DecidableEq, Repr

/-- The constructor defaults of `SalesFunnelService`. -/
def defaultOptions : FunnelOptions :=
  { defaultStage := "greeting"
    stageAdvancementThreshold := 0.7
    enableUpsellDownsell := true
    upsellTiming := { default := 7, premium_threshold := 30, quick_wins := 3 } }

/-- `Math.ceil(|d2 - d1| / 86400000)` — `calculateDaysBetween`. -/
def calculateDaysBetween (d1 d2 : Int) : Nat :=
  ((d2 - d1).natAbs + 86399999) / 86400000

/-- `Math.ceil(|d2 - d1| / 3600000)` — `calculateHoursBetween`. -/
def calculateHoursBetween (d1 d2 : Int) : Nat :=
  ((d2 - d1).natAbs + 3599999) / 3600000

/-- `timing.match(/\d+/)?.[0]`: the first maximal digit run of the string. -/
def firstDigitRun : List Char → Option (List Char)
  | [] => none
  | c :: cs =>
    if c.isDigit then some ((c :: cs).takeWhile Char.isDigit) else firstDigitRun cs

/-- `parseInt` on a digit run. -/
def parseNatDigits (ds : List Char) : Nat :=
  ds.foldl (fun a c => a * 10 + (c.toNat - 48)) 0

/-- The `switch (opportunity.timing)` of `checkUpsellOpportunity`. -/
def resolveTimingDays (opts : FunnelOptions) (timing : String) : Nat :=
  if timing = "após_3_dias" then opts.upsellTiming.quick_wins
  else if timing = "após_7_dias" then opts.upsellTiming.default
  else if timing = "após_30_dias" then opts.upsellTiming.premium_threshold
  else
    match firstDigitRun (lit timing) with
    | some ds => parseNatDigits ds
    | none => opts.upsellTiming.default

/-- `checkUpsellOpportunity(productId, daysSincePurchase)`: the first
configured opportunity whose window `[timing−1, timing+3]` contains the day
count; `none` when disabled or no match. -/
def checkUpsellOpportunity (opts : FunnelOptions) (productId : String)
    (daysSincePurchase : Nat) : Option UpsellOpp :=
  if !opts.enableUpsellDownsell then none
  else
    let opportunities := UPSELL_OPPORTUNITIES productId
    if opportunities = [] then none
    else
      opportunities.find? (fun opp =>
        let timingDays := resolveTimingDays opts opp.timing
        decide ((timingDays : Int) - 1 ≤ (daysSincePurchase : Int))
          && decide ((daysSincePurchase : Int) ≤ (timingDays : Int) + 3))

/-- `getDownsellForRejectedUpsell(upsellPlanId)`. -/
def getDownsellForRejectedUpsell (opts : FunnelOptions) (upsellPlanId : String) :
    Option DownsellOpp :=
  if !opts.enableUpsellDownsell then none
  else DOWNSELL_ALTERNATIVES upsellPlanId

/-- `updateFunnelStage(phoneNumber, newStage)` (lines 506–595).  Returns the
store after the call together with `none` on success or `some message` when
the call throws; a validation failure throws before any persistence. -/
def updateFunnelStage (opts : FunnelOptions) (s : Store) (newStage : String) :
    Store × Option String :=
  if newStage ∈ FUNNEL_STAGES then
    let currentVal : MemValue :=
      match getLatestMemoryEntry s "funnel_stage" with
      | some v => if v.truthy then v else .str opts.defaultStage
      | none => .str opts.defaultStage
    let specialResult : Store × String :=
      if currentVal = MemValue.str "upsell" ∧ newStage ≠ "upsell" then
        match getLatestMemoryEntry s "active_upsell" with
        | some av =>
          if av.truthy then
            let tp := av.targetPlanIdOf
            let s1 := saveMemoryEntry s "rejected_upsell"
                        (.rejection tp (s.now : Int)) "sales_opportunity"
            match getDownsellForRejectedUpsell opts tp with
            | some dopp =>
              (saveMemoryEntry s1 "active_downsell" (.downsell dopp) "sales_opportunity",
               "downsell")
            | none => (s1, newStage)
          else (s, newStage)
        | none => (s, newStage)
      else (s, newStage)
    let s2 := saveMemoryEntry specialResult.1 "current_stage" (.str specialResult.2)
                "funnel_stage"
    let s3 := saveMemoryEntry s2 ("stage_transition_" ++ toString s2.now)
                (.stTransition currentVal specialResult.2 (s2.now : Int)) "funnel_analytics"
    (s3, none)
  else
    (s, some ("Failed to update funnel stage: Invalid funnel stage: " ++ newStage))

/-- `recordPurchase(phoneNumber, productId, value)` (lines 604–653). -/
def recordPurchase (opts : FunnelOptions) (s : Store) (productId : String) (value : ℚ) :
    Store × Option String :=
  let s1 := saveMemoryEntry s "purchased_product" (.str productId) "purchase_history"
  let s2 := saveMemoryEntry s1 ("purchase_" ++ toString s1.now)
              (.purchaseRec productId value (s1.now : Int)) "purchase_history"
  let s3 := saveMemoryEntry s2 "last_interaction"
              (.interaction "purchase" (s2.now : Int) productId) "customer_journey"
  updateFunnelStage opts s3 "post_purchase_followup"

/-- One message of the chat state. -/
structure ChatMsg where
  role : String
  content : List Char
deriving DecidableEq, Repr

/-- The `pricingSignals` list of `determineCurrentStage`. -/
def pricingSignals : List (List Char) :=
  [lit "preço", lit "valor", lit "investimento", lit "custo", lit "plano",
   lit "pacote", lit "quanto custa"]

/-- The `closingSignals` list. -/
def closingSignals : List (List Char) :=
  [lit "comprar", lit "adquirir", lit "assinar", lit "contratar", lit "fechar",
   lit "pagamento"]

/-- The `demoSignals` list. -/
def demoSignals : List (List Char) :=
  [lit "funciona", lit "exemplo", lit "demonstração", lit "mostrar", lit "ver como"]

/-- `Object.values(OBJECTION_STRATEGIES).flatMap(obj => obj.detection)`, in
object order (`price_too_high`, `need_time`, `need_approval`, `competitor`,
`no_need`, `technical_concerns`); the strategies/example texts of
`OBJECTION_STRATEGIES` are not consumed by the functions embedded here. -/
def objectionSignals : List (List Char) :=
  [lit "caro", lit "preço", lit "custo", lit "valor", lit "barato",
   lit "desconto", lit "promoção", lit "investimento", lit "orçamento",
   lit "tempo", lit "pensar", lit "depois", lit "consultar", lit "decidir",
   lit "amanhã", lit "semana", lit "reflexão", lit "analisar",
   lit "consultar", lit "chefe", lit "sócio", lit "esposa", lit "marido",
   lit "equipe", lit "decidir junto", lit "gerente", lit "superior", lit "diretor",
   lit "concorrente", lit "outra empresa", lit "outro sistema", lit "alternativa",
   lit "comparando", lit "diferente", lit "similar", lit "serviço parecido",
   lit "não preciso", lit "desnecessário", lit "resolvido", lit "satisfeito",
   lit "não tenho problema", lit "sem interesse", lit "não é prioridade",
   lit "complicado", lit "difícil", lit "técnico", lit "complexo",
   lit "implementação", lit "integração", lit "instalar", lit "configurar",
   lit "aprender"]

/-- The message-analysis fallback of `determineCurrentStage` (lines 394–490):
derive a stage from the conversation length and the last five user messages,
then persist it under key `current_stage`, type `funnel_stage`. -/
def stageFromMessages (s : Store) (messages : List ChatMsg) : MemValue × Store :=
  let messageCount := messages.length
  let stage :=
    if messageCount = 0 then "greeting"
    else if messageCount < 5 then "qualification"
    else if messageCount < 10 then "need_discovery"
    else
      let recentMessages := messages.drop (messages.length - 5)
      let userMessages := (recentMessages.filter (fun m => m.role = "user")).map
        (fun m => m.content.map jsLower)
      let hasPricingDiscussion := userMessages.any (fun msg =>
        pricingSignals.any (fun sig => sIncludes msg sig))
      let hasClosingDiscussion := userMessages.any (fun msg =>
        closingSignals.any (fun sig => sIncludes msg sig))
      let hasDemoRequest := userMessages.any (fun msg =>
        demoSignals.any (fun sig => sIncludes msg sig))
      let hasObjections := userMessages.any (fun msg =>
        objectionSignals.any (fun sig => sIncludes msg sig))
      if hasClosingDiscussion then "closing"
      else if hasPricingDiscussion then "price_discussion"
      else if hasObjections then "objection_handling"
      else if hasDemoRequest then "product_demonstration"
      else if messageCount < 15 then "pain_point_exploration"
      else if messageCount < 20 then "solution_presentation"
      else "value_proposition"
  (.str stage, saveMemoryEntry s "current_stage" (.str stage) "funnel_stage")

/-- The upsell/downsell inspection of `determineCurrentStage` (lines 313–392):
`some` when it returns a stage (saving the activated opportunity), `none` when
control falls through to the message analysis. -/
def upsellBranch (opts : FunnelOptions) (s : Store) (nowMs : Int) :
    Option (MemValue × Store) :=
  match getLatestMemoryEntry s "purchased_product",
        getLatestMemoryEntry s "last_interaction" with
  | some pv, some lv =>
    if pv.truthy ∧ lv.truthy then
      let purchasedProductId := pv.asKey
      let daysSincePurchase := calculateDaysBetween lv.purchaseDateOf nowMs
      match checkUpsellOpportunity opts purchasedProductId daysSincePurchase with
      | some opp =>
        some (.str "upsell",
              saveMemoryEntry s "active_upsell" (.upsell opp) "sales_opportunity")
      | none =>
        match getLatestMemoryEntry s "rejected_upsell" with
        | some rv =>
          if rv.truthy then
            let hoursSinceRejection := calculateHoursBetween rv.rejectionTimeOf nowMs
            if hoursSinceRejection < 24 then
              match getDownsellForRejectedUpsell opts rv.rejectedTargetOf with
              | some dopp =>
                some (.str "downsell",
                      saveMemoryEntry s "active_downsell" (.downsell dopp)
                        "sales_opportunity")
              | none => none
            else none
          else none
        | none => none
    else none
  | _, _ => none

/-- `determineCurrentStage(phoneNumber, chatState)` (lines 298–498): a saved
stage wins; otherwise the upsell/downsell inspection (when enabled); otherwise
the message analysis.  `nowMs` is the millisecond value of `new Date()`. -/
def determineCurrentStage (opts : FunnelOptions) (s : Store) (messages : List ChatMsg)
    (nowMs : Int) : MemValue × Store :=
  let rest :=
    match (if opts.enableUpsellDownsell then upsellBranch opts s nowMs else none) with
    | some r => r
    | none => stageFromMessages s messages
  match getLatestMemoryEntry s "funnel_stage" with
  | some v => if v.truthy then (v, s) else rest
  | none => rest

/-! ## Message batching (src/chatHandler.js, lines 109–242)

JavaScript is single-threaded: the body of `_processMessageGroup` up to and
including `this.processingChats.set(...)` contains no `await`, so it runs
atomically with respect to other timer callbacks.  The per-conversation
batching behaviour is therefore modelled as a transition system whose events
are the atomic sections of the source: a fragment arrival
(`_addToMessageGroup`), a debounce-timer expiry (`_processMessageGroup`), one
iteration of the `while` loop of `_processChatMessages` (`drainStep`), normal
loop exit plus the `finally` cleanup (`finishRun`), and the `catch`/`finally`
path after a processing failure (`abortRun`).  `runs` counts the processing
runs that have been started and not yet finished. -/

/-- Per-conversation batching state: `group` is the pending
`incomingMessages` buffer, `pending` the `pendingMessages` list of the active
processor (if one exists). -/
structure BatchState where
  group : Option (List Nat)
  pending : Option (List Nat)
  runs : Nat
deriving DecidableEq, Repr

/-- The events of the batching state machine. -/
inductive BatchEvent where
  | arrive : Nat → BatchEvent
  | timerFire : BatchEvent
  | drainStep : BatchEvent
  | finishRun : BatchEvent
  | abortRun : BatchEvent
deriving DecidableEq, Repr

/-- Initial state: no buffer, no processor. -/
def batchInit : BatchState := ⟨none, none, 0⟩

/-- One atomic step of the batching state machine. -/
def batchStep (st : BatchState) : BatchEvent → BatchState
  | .arrive m =>
    match st.group with
    | some g => { st with group := some (g ++ [m]) }
    | none => { st with group := some [m] }
  | .timerFire =>
    match st.group with
    | none => st
    | some msgs =>
      if msgs = [] then { st with group := none }
      else
        match st.pending with
        | some p => { st with group := none, pending := some (p ++ msgs) }
        | none => { st with group := none, pending := some msgs, runs := st.runs + 1 }
  | .drainStep =>
    match st.pending with
    | some (_ :: _) => { st with pending := some [] }
    | _ => st
  | .finishRun =>
    match st.pending with
    | some [] => { st with pending := none, runs := st.runs - 1 }
    | _ => st
  | .abortRun =>
    match st.pending with
    | some _ => { st with pending := none, runs := st.runs - 1 }
    | none => st

/-- States reachable from the initial state. -/
inductive BatchReachable : BatchState → Prop where
  | init : BatchReachable batchInit
  | step (st : BatchState) (e : BatchEvent) :
      BatchReachable st → BatchReachable (batchStep st e)

/-! ## Outgoing message splitting (src/chatHandler.js, lines 878–990) -/

/-- `String.prototype.lastIndexOf(pat, pos)`: the greatest start index `≤ pos`
of an occurrence of `pat`, or `-1`. -/
def jsLastIndexOf (text pat : List Char) (pos : Nat) : Int :=
  match ((List.range (pos + 1)).filter (fun i => isPrefixL pat (text.drop i))).getLast? with
  | some i => (i : Int)
  | none => -1

/-- Fuel-indexed `while` loop of `_splitTextChunks`; `fuel ≥ text.length`
suffices when `maxLength ≥ 1` (with `maxLength = 0` the source loops
forever; the configuration clamps it to at least 100).  The comparisons with
`start + maxLength / 2` use JavaScript float division, i.e. for integers
`b < start + maxLength / 2 ⟺ 2·b < 2·start + maxLength`. -/
def splitTextChunksAux : Nat → List Char → Nat → Nat → List (List Char)
  | 0, _, _, _ => []
  | fuel + 1, text, maxLength, start =>
    if start < text.length then
      if start + maxLength ≥ text.length then
        [jsTrim (text.drop start)]
      else
        let e := start + maxLength
        let half : Int := 2 * (start : Int) + (maxLength : Int)
        let b1 := jsLastIndexOf text (lit ". ") e
        let b2 := if 2 * b1 < half then jsLastIndexOf text (lit "? ") e else b1
        let b3 := if 2 * b2 < half then jsLastIndexOf text (lit "! ") e else b2
        let b4 := if 2 * b3 < half then jsLastIndexOf text (lit "\n") e else b3
        let b5 := if 2 * b4 < half then jsLastIndexOf text (lit " ") e else b4
        let b : Nat := if b5 < (start : Int) then start + maxLength - 1 else b5.toNat
        jsTrim ((text.drop start).take (b + 1 - start))
          :: splitTextChunksAux fuel text maxLength (b + 1)
    else []

/-- `_splitTextChunks(text, maxLength)`. -/
def splitTextChunks (text : List Char) (maxLength : Nat) : List (List Char) :=
  splitTextChunksAux (text.length + 1) text maxLength 0

/-- Match of the paragraph separator regex `\n\s*\n` at the head of `s`:
returns the remainder after the greedy match (the greedy `\s*` backtracks to
the last newline of the whitespace run following the first newline). -/
def paraSepMatch (s : List Char) : Option (List Char) :=
  match s with
  | '\n' :: cs =>
    let run := cs.takeWhile isJsSpace
    match ((List.range run.length).filter (fun j => run.get? j = some '\n')).getLast? with
    | some j => some (cs.drop (j + 1))
    | none => none
  | _ => none

/-- Fuel-indexed `content.split(/\n\s*\n/)`. -/
def splitParasAux : Nat → List Char → List Char → List (List Char)
  | 0, acc, s => [acc.reverse ++ s]
  | _ + 1, acc, [] => [acc.reverse]
  | fuel + 1, acc, c :: cs =>
    match paraSepMatch (c :: cs) with
    | some rest => acc.reverse :: splitParasAux fuel [] rest
    | none => splitParasAux fuel (c :: acc) cs

/-- `content.split(/\n\s*\n/)`. -/
def splitParas (content : List Char) : List (List Char) :=
  splitParasAux (content.length + 1) [] content

/-- The paragraph-accumulation loop body of `_splitMessage` (lines 895–920):
state is `(messages, currentMessage)`. -/
def splitMessageFold (maxLength : Nat) (acc : List (List Char) × List Char)
    (paragraph : List Char) : List (List Char) × List Char :=
  let messages := acc.1
  let currentMessage := acc.2
  if currentMessage.length + paragraph.length + 2 > maxLength then
    let messages :=
      if currentMessage ≠ [] then messages ++ [jsTrim currentMessage] else messages
    if paragraph.length > maxLength then
      (messages ++ splitTextChunks paragraph maxLength, [])
    else (messages, paragraph)
  else
    if currentMessage ≠ [] then (messages, currentMessage ++ lit "\n\n" ++ paragraph)
    else (messages, paragraph)

/-- `_splitMessage(content)` with the two configuration values as
parameters. -/
def splitMessage (maxLength : Nat) (shouldSplitParagraphs : Bool)
    (content : List Char) : List (List Char) :=
  if content.length ≤ maxLength then [content]
  else if shouldSplitParagraphs then
    let acc := (splitParas content).foldl (splitMessageFold maxLength) ([], [])
    if acc.2 ≠ [] then acc.1 ++ [jsTrim acc.2] else acc.1
  else splitTextChunks content maxLength

/-! ## Analysis predicates and concrete fixtures -/

/-- The four command names of the directive alternation, lowercased. -/
def commandNames : List (List Char) :=
  [lit "prova_social", lit "checkout", lit "etapa", lit "suporte"]

/-- The text begins with two newlines. -/
def startsNl2 : List Char → Bool
  | a :: b :: _ => decide (a = '\n') && decide (b = '\n')
  | _ => false

/-- The text contains three consecutive newlines — exactly the texts on which
the `\n{3,}` replacement acts. -/
def hasTriple : List Char → Bool
  | [] => false
  | c :: cs => (decide (c = '\n') && startsNl2 cs) || hasTriple cs

/-- Length of the leading newline run. -/
def nlRun (s : List Char) : Nat := (s.takeWhile (fun c => c = '\n')).length

/-- A store whose persisted stage is `upsell` and which carries the active
upsell exactly as `determineCurrentStage` attaches it: key `active_upsell`,
type `sales_opportunity`. -/
def upsellStoreC1 : Store :=
  { entries :=
      [⟨"current_stage", "funnel_stage", .str "upsell", 0⟩,
       ⟨"active_upsell", "sales_opportunity", .upsell upsellBasicToPro, 1⟩],
    now := 2 }

/-- A store with a recorded `basic_plan` purchase, laid out exactly as
`recordPurchase` writes it (purchase date 0 ms), but with no persisted
stage. -/
def purchaseStoreC3 : Store :=
  { entries :=
      [⟨"purchased_product", "purchase_history", .str "basic_plan", 0⟩,
       ⟨"purchase_1", "purchase_history", .purchaseRec "basic_plan" 100 0, 1⟩,
       ⟨"last_interaction", "customer_journey", .interaction "purchase" 0 "basic_plan", 2⟩],
    now := 3 }

/-! ## Theorems for claims C7, C8, C10 -/

/-- Auxiliary: `countMatches` is positive exactly when some indicator occurs. -/
theorem countMatches_pos_iff (m : List Char) (inds : List (List Char)) :
    0 < countMatches m inds ↔ ∃ kw ∈ inds, sIncludes m kw = true := by
  simp [countMatches, List.countP_pos_iff]

/-- C10: `analyzeUpsellResponse` is total, its confidence always lies in
`[0, 0.95]`, it accepts only when some positive indicator occurs in the
lowercased message, and a `null`/`undefined`/empty message yields
`accepted = false` at confidence `0`. -/
theorem analyzeUpsellResponse_total_bounds :
    (∀ m : Option (List Char),
        0 ≤ (analyzeUpsellResponse m).confidence
        ∧ (analyzeUpsellResponse m).confidence ≤ 0.95)
    ∧ (∀ msg : List Char, (analyzeUpsellResponse (some msg)).accepted = true →
        ∃ kw ∈ positiveIndicators, sIncludes (msg.map jsLower) kw = true)
    ∧ analyzeUpsellResponse none = ⟨false, 0⟩
    ∧ analyzeUpsellResponse (some []) = ⟨false, 0⟩ := by
  refine ⟨?_, ?_, rfl, rfl⟩
  · rintro (_ | msg)
    · constructor <;> norm_num [analyzeUpsellResponse]
    · simp only [analyzeUpsellResponse]
      constructor <;>
        (split_ifs <;>
          first
            | exact le_min (by positivity) (by norm_num)
            | exact min_le_right _ _
            | norm_num)
  · intro msg hacc
    rw [← countMatches_pos_iff]
    by_contra hpos
    push_neg at hpos
    have h0 : countMatches (msg.map jsLower) positiveIndicators = 0 := by omega
    revert hacc
    simp only [analyzeUpsellResponse]
    split_ifs <;> simp_all

/-- Witness for C10: the acceptance hypothesis is dischargeable — on the
message `"sim"` the classifier accepts and a positive indicator indeed
occurs. -/
theorem analyzeUpsellResponse_total_bounds_witness :
    ∃ kw ∈ positiveIndicators, sIncludes ((lit "sim").map jsLower) kw = true :=
  analyzeUpsellResponse_total_bounds.2.1 (lit "sim") (by decide)

/-- C8: when only positive indicators match, the response is accepted with
confidence `min (0.3 + 0.2·positiveCount) 0.95`; in particular
`"sim, quero!"` is accepted and `"não, muito caro"` rejected, both with
confidence at least `0.5`. -/
theorem analyzeUpsellResponse_positive_only :
    (∀ msg : List Char,
        0 < countMatches (msg.map jsLower) positiveIndicators →
        countMatches (msg.map jsLower) negativeIndicators = 0 →
        analyzeUpsellResponse (some msg)
          = ⟨true, min (0.3 + (countMatches (msg.map jsLower) positiveIndicators : ℚ) * 0.2)
                      0.95⟩)
    ∧ (analyzeUpsellResponse (some (lit "sim, quero!"))).accepted = true
    ∧ 0.5 ≤ (analyzeUpsellResponse (some (lit "sim, quero!"))).confidence
    ∧ (analyzeUpsellResponse (some (lit "não, muito caro"))).accepted = false
    ∧ 0.5 ≤ (analyzeUpsellResponse (some (lit "não, muito caro"))).confidence := by
  refine ⟨?_, by decide, ?_, by decide, ?_⟩
  · intro msg hpos hneg
    have hne : msg ≠ [] := by
      rintro rfl
      exact absurd hpos (by decide)
    simp only [analyzeUpsellResponse, if_neg hne]
    rw [if_pos (Or.inl hpos), if_neg (by omega : ¬ _), if_pos hpos]
  · have h : analyzeUpsellResponse (some (lit "sim, quero!"))
        = ⟨true, min (0.3 + ((2:ℕ):ℚ) * 0.2) 0.95⟩ := rfl
    rw [h]
    norm_num
  · have h : analyzeUpsellResponse (some (lit "não, muito caro"))
        = ⟨false, min (0.3 + ((3:ℕ):ℚ) * 0.2) 0.95⟩ := rfl
    rw [h]
    norm_num

/-- Witness for C8: applying the universally quantified part at the concrete
message `"sim"`. -/
theorem analyzeUpsellResponse_positive_only_witness :
    analyzeUpsellResponse (some (lit "sim"))
      = ⟨true, min (0.3 + ((1:ℕ):ℚ) * 0.2) 0.95⟩ :=
  analyzeUpsellResponse_positive_only.1 (lit "sim") (by decide) (by decide)

/-- Counterexample to C7 as stated: in `"não sim quero"` both indicator sets
hit and `"não"` (index 0) occurs before every occurring positive keyword
(`"sim"` at 4, `"quero"` at 8), yet the code accepts — because the source
compares `indexOf("não")` with `indexOf("interessante")` (the literal word),
not with the first positive keyword, and `"interessante"` is absent
(index −1). -/
theorem analyzeUpsellResponse_mixed_cex :
    0 < countMatches ((lit "não sim quero").map jsLower) positiveIndicators
    ∧ 0 < countMatches ((lit "não sim quero").map jsLower) negativeIndicators
    ∧ jsIndexOf ((lit "não sim quero").map jsLower) (lit "não") = 0
    ∧ (∀ kw ∈ positiveIndicators,
        sIncludes ((lit "não sim quero").map jsLower) kw = true →
        0 < jsIndexOf ((lit "não sim quero").map jsLower) kw)
    ∧ (analyzeUpsellResponse (some (lit "não sim quero"))).accepted = true := by
  decide

/-- C7 (amended): when both indicator sets hit, confidence is `0.6`, and the
response is negative when `indexOf "não" < indexOf "interessante"` (−1 when
absent, as in the source), otherwise accepted exactly when strictly more
positive than negative indicators match. -/
theorem analyzeUpsellResponse_mixed (msg : List Char)
    (hpos : 0 < countMatches (msg.map jsLower) positiveIndicators)
    (hneg : 0 < countMatches (msg.map jsLower) negativeIndicators) :
    analyzeUpsellResponse (some msg)
      = if jsIndexOf (msg.map jsLower) (lit "não")
            < jsIndexOf (msg.map jsLower) (lit "interessante")
        then ⟨false, 0.6⟩
        else ⟨decide (countMatches (msg.map jsLower) positiveIndicators
                > countMatches (msg.map jsLower) negativeIndicators), 0.6⟩ := by
  have hne : msg ≠ [] := by
    rintro rfl
    exact absurd hpos (by decide)
  simp only [analyzeUpsellResponse, if_neg hne]
  rw [if_pos (Or.inl hpos), if_pos ⟨hpos, hneg⟩]

/-- Witness for the amended C7 at the concrete message `"não sim quero"`. -/
theorem analyzeUpsellResponse_mixed_witness :
    analyzeUpsellResponse (some (lit "não sim quero"))
      = if jsIndexOf ((lit "não sim quero").map jsLower) (lit "não")
            < jsIndexOf ((lit "não sim quero").map jsLower) (lit "interessante")
        then ⟨false, 0.6⟩
        else ⟨decide (countMatches ((lit "não sim quero").map jsLower) positiveIndicators
                > countMatches ((lit "não sim quero").map jsLower) negativeIndicators), 0.6⟩ :=
  analyzeUpsellResponse_mixed (lit "não sim quero") (by decide) (by decide)

/-! ## Theorems for claims C1, C2, C3 -/

/-- C2: a stage id outside the 18-value enum makes `updateFunnelStage` throw
the validation error before any persistence: the store is returned unchanged —
the persisted current stage is untouched and no transition record is
written. -/
theorem updateFunnelStage_invalid (opts : FunnelOptions) (s : Store) (ns : String)
    (h : ns ∉ FUNNEL_STAGES) :
    updateFunnelStage opts s ns
      = (s, some ("Failed to update funnel stage: Invalid funnel stage: " ++ ns)) := by
  simp [updateFunnelStage, h]

/-- Witness for C2: at the unknown stage id `"foo"` on an empty store. -/
theorem updateFunnelStage_invalid_witness :
    updateFunnelStage defaultOptions ⟨[], 0⟩ "foo"
      = (⟨[], 0⟩, some ("Failed to update funnel stage: Invalid funnel stage: " ++ "foo")) :=
  updateFunnelStage_invalid defaultOptions ⟨[], 0⟩ "foo" (by decide)

/-- C1 (code bug): on a store whose persisted stage is `upsell` with the
active upsell attached the way the service itself attaches it (key
`active_upsell`, type `sales_opportunity`), and whose target plan `pro_plan`
has a downsell mapping, `updateFunnelStage(…, "closing")` persists `closing` —
not `downsell` — and writes no rejection record: the lookup
`getLatestMemoryEntry(phone, "active_upsell")` filters on the `type` column
and therefore never finds the upsell. -/
theorem updateFunnelStage_upsell_rejection_cex :
    getLatestMemoryEntry upsellStoreC1 "funnel_stage" = some (.str "upsell")
    ∧ (upsellStoreC1.entries.filter
        (fun e => e.key = "active_upsell" && e.type = "sales_opportunity")).length = 1
    ∧ DOWNSELL_ALTERNATIVES "pro_plan" ≠ none
    ∧ (updateFunnelStage defaultOptions upsellStoreC1 "closing").2 = none
    ∧ getLatestMemoryEntry (updateFunnelStage defaultOptions upsellStoreC1 "closing").1
        "funnel_stage" = some (.str "closing")
    ∧ ((updateFunnelStage defaultOptions upsellStoreC1 "closing").1.entries.filter
        (fun e => e.key = "rejected_upsell")) = [] := by
  decide

/-- C3 (code bug): on a conversation with no persisted stage and a recorded
`basic_plan` purchase 7 days old, the configured opportunity (nominal timing
`após_7_dias` = 7 days, window containing 7 but not 20) would match — yet
`determineCurrentStage` returns `greeting` and activates nothing, because the
lookup `getLatestMemoryEntry(phone, "purchased_product")` filters on the
`type` column while purchases are stored under type `purchase_history`. -/
theorem determineCurrentStage_purchase_cex :
    getLatestMemoryEntry purchaseStoreC3 "funnel_stage" = none
    ∧ calculateDaysBetween 0 604800000 = 7
    ∧ (checkUpsellOpportunity defaultOptions "basic_plan" 7).isSome = true
    ∧ (checkUpsellOpportunity defaultOptions "basic_plan" 7).map (fun o => o.timing)
        = some "após_7_dias"
    ∧ (checkUpsellOpportunity defaultOptions "basic_plan" 7).map (fun o => o.targetPlanId)
        = some "pro_plan"
    ∧ checkUpsellOpportunity defaultOptions "basic_plan" 20 = none
    ∧ (determineCurrentStage defaultOptions purchaseStoreC3 [] 604800000).1 = .str "greeting"
    ∧ ((determineCurrentStage defaultOptions purchaseStoreC3 [] 604800000).2.entries.filter
        (fun e => e.key = "active_upsell")) = [] := by
  decide

/-! ## Theorems for claim C4 -/

/-- C4: in every reachable batching state at most one processing run is
active (`runs ≤ 1`, and a run is active exactly when a processor with its
pending list exists); a timer that fires while a run is active appends the
buffered fragments to that run's pending list without starting a second run;
a loop iteration on a non-empty pending list consumes it within the same run;
and a run finishes normally only when its pending list is empty. -/
theorem batch_mutual_exclusion :
    (∀ st : BatchState, BatchReachable st →
        st.runs ≤ 1 ∧ (st.runs = 1 ↔ st.pending.isSome = true))
    ∧ (∀ (st : BatchState) (p msgs : List Nat), st.pending = some p →
        st.group = some msgs → msgs ≠ [] →
        batchStep st .timerFire = { st with group := none, pending := some (p ++ msgs) })
    ∧ (∀ (st : BatchState) (m : Nat) (ms : List Nat), st.pending = some (m :: ms) →
        batchStep st .drainStep = { st with pending := some [] })
    ∧ (∀ st : BatchState, st.pending ≠ some [] → batchStep st .finishRun = st) := by
  refine ⟨?_, ?_, ?_, ?_⟩
  · intro st h
    induction h with
    | init => simp [batchInit]
    | step st e hr ih =>
      obtain ⟨g, p, r⟩ := st
      obtain ⟨h1, h2⟩ := ih
      rcases p with _ | (_ | ⟨m, ms⟩) <;>
        rcases g with _ | (_ | ⟨a, as⟩) <;>
          cases e <;>
            first
              | (simp_all [batchStep]; omega)
              | simp_all [batchStep]
  · intro st p msgs hp hg hm
    simp [batchStep, hg, hm, hp]
  · intro st m ms hp
    simp [batchStep, hp]
  · intro st hp
    cases hpp : st.pending with
    | none => simp [batchStep, hpp]
    | some p =>
      cases p with
      | nil => exact absurd hpp hp
      | cons m ms => simp [batchStep, hpp]

/-- Witness for C4: a timer firing with buffer `[1]` while a run with pending
list `[0]` is active appends the fragment and keeps the single run. -/
theorem batch_mutual_exclusion_witness :
    batchStep ⟨some [1], some [0], 1⟩ .timerFire = ⟨none, some ([0] ++ [1]), 1⟩ :=
  batch_mutual_exclusion.2.1 ⟨some [1], some [0], 1⟩ [0] [1] rfl rfl (by decide)

/-! ## Theorem for claim C9 -/

/-- C9 (code bug): with the smallest configurable maximum length (100) and the
103-character text `"x"*100 ++ ". a"`, `_splitMessage` (paragraph splitting
on, its default) emits a first chunk of 101 characters: when a sentence
boundary `". "` starts exactly at `start + maxLength`, the source's
`substring(start, sentenceBoundary + 1)` is one character longer than the
configured bound. -/
theorem splitMessage_exceeds_max :
    splitMessage 100 true (List.replicate 100 'x' ++ lit ". a")
      = [List.replicate 100 'x' ++ ['.'], lit "a"]
    ∧ (List.replicate 100 'x' ++ ['.']).length = 101 := by
  decide

/-! ## Theorems for claim C5 -/

/-- After two or more consecutive newlines have just been processed,
`collapseGo` never emits a leading newline. -/
theorem collapseGo_head_ne_nl (s : List Char) : ∀ run, 2 ≤ run →
    (collapseGo run s).head? ≠ some '\n' := by
  induction s with
  | nil => intro run _; simp [collapseGo]
  | cons c cs ih =>
    intro run h
    by_cases hc : c = '\n'
    · subst hc
      rw [collapseGo, if_pos rfl, if_pos h]
      exact ih (run + 1) (by omega)
    · rw [collapseGo, if_neg hc]
      simp [hc]

/-- A text whose head is not a newline does not start with two newlines. -/
theorem startsNl2_eq_false_of_head (t : List Char) (h : t.head? ≠ some '\n') :
    startsNl2 t = false := by
  match t with
  | [] => rfl
  | [a] => rfl
  | a :: b :: r =>
    simp at h
    simp [startsNl2, h]

/-- With one pending newline, the output of `collapseGo` never starts with two
newlines. -/
theorem startsNl2_collapseGo_one (s : List Char) : startsNl2 (collapseGo 1 s) = false := by
  match s with
  | [] => rfl
  | c :: cs =>
    by_cases hc : c = '\n'
    · subst hc
      rw [collapseGo, if_pos rfl, if_neg (by omega)]
      have h := collapseGo_head_ne_nl cs 2 (by omega)
      match hx : collapseGo 2 cs with
      | [] => rfl
      | d :: ds =>
        rw [hx] at h
        simp at h
        simp [startsNl2, h]
    · rw [collapseGo, if_neg hc]
      exact startsNl2_eq_false_of_head _ (by simp [hc])

/-- The output of the newline-collapsing replacement never contains three
consecutive newlines. -/
theorem hasTriple_collapseGo (s : List Char) : ∀ run, hasTriple (collapseGo run s) = false := by
  induction s with
  | nil => intro run; rfl
  | cons c cs ih =>
    intro run
    by_cases hc : c = '\n'
    · subst hc
      by_cases h2 : 2 ≤ run
      · rw [collapseGo, if_pos rfl, if_pos h2]
        exact ih (run + 1)
      · rw [collapseGo, if_pos rfl, if_neg h2]
        have hs2 : startsNl2 (collapseGo (run + 1) cs) = false := by
          by_cases h1 : run = 0
          · subst h1; exact startsNl2_collapseGo_one cs
          · exact startsNl2_eq_false_of_head _ (collapseGo_head_ne_nl cs (run + 1) (by omega))
        simp [hasTriple, hs2, ih (run + 1)]
    · rw [collapseGo, if_neg hc]
      simp [hasTriple, hc, ih 0]

/-- Leading newline run of a cons. -/
theorem nlRun_cons_nl (cs : List Char) : nlRun ('\n' :: cs) = nlRun cs + 1 := by
  simp [nlRun]

/-- Two leading newlines make `startsNl2` true. -/
theorem startsNl2_of_nlRun_two (t : List Char) (h : 2 ≤ nlRun t) : startsNl2 t = true := by
  match t with
  | [] => simp [nlRun] at h
  | [a] =>
    by_cases ha : a = '\n' <;> simp [nlRun, ha] at h
  | a :: b :: r =>
    by_cases ha : a = '\n'
    · by_cases hb : b = '\n'
      · simp [startsNl2, ha, hb]
      · subst ha; simp [nlRun, hb] at h
    · simp [nlRun, ha] at h

/-- Three leading newlines witness a triple. -/
theorem hasTriple_of_nlRun_three (t : List Char) (h : 3 ≤ nlRun t) : hasTriple t = true := by
  match t with
  | [] => simp [nlRun] at h
  | c :: cs =>
    by_cases hc : c = '\n'
    · subst hc
      rw [nlRun_cons_nl] at h
      simp [hasTriple, startsNl2_of_nlRun_two cs (by omega)]
    · simp [nlRun, hc] at h

/-- On a text with no triple newline (and a compatible pending run), the
collapsing replacement is the identity. -/
theorem collapseGo_eq_self (s : List Char) : ∀ run, hasTriple s = false →
    nlRun s + run ≤ 2 → collapseGo run s = s := by
  induction s with
  | nil => intro run _ _; rfl
  | cons c cs ih =>
    intro run hT hR
    have hTcs : hasTriple cs = false := by
      simp [hasTriple] at hT
      tauto
    by_cases hc : c = '\n'
    · subst hc
      rw [nlRun_cons_nl] at hR
      rw [collapseGo, if_pos rfl, if_neg (by omega)]
      congr 1
      exact ih (run + 1) hTcs (by omega)
    · rw [collapseGo, if_neg hc]
      congr 1
      have h3 : ¬ 3 ≤ nlRun cs := by
        intro hcon
        rw [hasTriple_of_nlRun_three cs hcon] at hTcs
        simp at hTcs
      exact ih 0 hTcs (by omega)

/-- On a text with no triple newline the whole replacement is the identity. -/
theorem collapseNewlines_eq_self (u : List Char) (h : hasTriple u = false) :
    collapseNewlines u = u := by
  apply collapseGo_eq_self u 0 h
  by_contra hcon
  rw [hasTriple_of_nlRun_three u (by omega)] at h
  simp at h

/-- A triple-free text has triple-free suffixes. -/
theorem hasTriple_suffix_false (p v : List Char) (h : hasTriple (p ++ v) = false) :
    hasTriple v = false := by
  induction p with
  | nil => simpa using h
  | cons a p ih =>
    apply ih
    rw [List.cons_append] at h
    simp [hasTriple] at h
    tauto

/-- `startsNl2` is preserved by appending on the right. -/
theorem startsNl2_append (v t : List Char) (h : startsNl2 v = true) :
    startsNl2 (v ++ t) = true := by
  match v with
  | [] => simp [startsNl2] at h
  | [a] => simp [startsNl2] at h
  | a :: b :: r => simpa [startsNl2] using h

/-- A triple-free text has triple-free prefixes. -/
theorem hasTriple_prefix_false (v t : List Char) (h : hasTriple (v ++ t) = false) :
    hasTriple v = false := by
  induction v with
  | nil => rfl
  | cons a v ih =>
    rw [List.cons_append] at h
    simp [hasTriple] at h ⊢
    obtain ⟨h1, h2⟩ := h
    refine ⟨?_, ih h2⟩
    intro ha
    cases hs : startsNl2 v with
    | false => rfl
    | true => exact absurd (h1 ha) (by simp [startsNl2_append v t hs])

/-- Trimming preserves triple-freeness (the trimmed text is a contiguous piece
of the original). -/
theorem hasTriple_jsTrim (u : List Char) (h : hasTriple u = false) :
    hasTriple (jsTrim u) = false := by
  have h1 : hasTriple (u.dropWhile isJsSpace) = false := by
    apply hasTriple_suffix_false (u.takeWhile isJsSpace)
    rw [List.takeWhile_append_dropWhile]
    exact h
  have h2 : jsTrim u
      ++ ((u.dropWhile isJsSpace).reverse.takeWhile isJsSpace).reverse
      = u.dropWhile isJsSpace := by
    conv_rhs =>
      rw [← List.reverse_reverse (u.dropWhile isJsSpace),
        ← List.takeWhile_append_dropWhile isJsSpace (u.dropWhile isJsSpace).reverse,
        List.reverse_append]
    rfl
  exact hasTriple_prefix_false _ _ (h2 ▸ h1)

/-- `String.prototype.trim` is idempotent. -/
theorem jsTrim_idem (u : List Char) : jsTrim (jsTrim u) = jsTrim u := by
  have hwdw : ((u.dropWhile isJsSpace).reverse.dropWhile isJsSpace).dropWhile isJsSpace
      = (u.dropWhile isJsSpace).reverse.dropWhile isJsSpace := by
    match hww : (u.dropWhile isJsSpace).reverse.dropWhile isJsSpace with
    | [] => rfl
    | c :: cr =>
      have hh := List.head?_dropWhile_not isJsSpace (u.dropWhile isJsSpace).reverse
      rw [hww] at hh
      simp only [List.head?_cons] at hh
      rw [List.dropWhile_cons_of_neg (by simp [hh])]
  have hyd : (((u.dropWhile isJsSpace).reverse.dropWhile isJsSpace).reverse).dropWhile
      isJsSpace = ((u.dropWhile isJsSpace).reverse.dropWhile isJsSpace).reverse := by
    match hwr : ((u.dropWhile isJsSpace).reverse.dropWhile isJsSpace).reverse with
    | [] => rfl
    | c :: cr =>
      have hsplit : ((u.dropWhile isJsSpace).reverse.dropWhile isJsSpace).reverse
          ++ ((u.dropWhile isJsSpace).reverse.takeWhile isJsSpace).reverse
          = u.dropWhile isJsSpace := by
        conv_rhs =>
          rw [← List.reverse_reverse (u.dropWhile isJsSpace),
            ← List.takeWhile_append_dropWhile isJsSpace (u.dropWhile isJsSpace).reverse,
            List.reverse_append]
      have hh := List.head?_dropWhile_not isJsSpace u
      have hvh : (u.dropWhile isJsSpace).head? = some c := by
        rw [← hsplit, hwr]
        simp
      rw [hvh] at hh
      rw [List.dropWhile_cons_of_neg (by simp [hh])]
  show ((((jsTrim u).dropWhile isJsSpace).reverse).dropWhile isJsSpace).reverse = jsTrim u
  show (((((u.dropWhile isJsSpace).reverse.dropWhile isJsSpace).reverse).dropWhile
      isJsSpace).reverse.dropWhile isJsSpace).reverse
    = ((u.dropWhile isJsSpace).reverse.dropWhile isJsSpace).reverse
  rw [hyd, List.reverse_reverse, hwdw]

/-- Counterexample to C5 as stated: stripping `"!eta!checkoutpa"` once removes
the embedded `!checkout` and thereby *creates* the directive `"!etapa"`, which
only a second strip removes — so strip ∘ strip ≠ strip on this input. -/
theorem removeSpecialCommands_idem_cex :
    removeSpecialCommands (lit "!eta!checkoutpa") = lit "!etapa"
    ∧ removeSpecialCommands (removeSpecialCommands (lit "!eta!checkoutpa")) = []
    ∧ removeSpecialCommands (removeSpecialCommands (lit "!eta!checkoutpa"))
        ≠ removeSpecialCommands (lit "!eta!checkoutpa") := by
  decide

/-- C5 (amended): `stripDirectives` is idempotent on every input whose
stripped form contains no further directive occurrence (removing a directive
can splice the surrounding text into a new directive; on all other inputs a
second strip changes nothing, since collapsing and trimming are idempotent and
trimming preserves collapsedness). -/
theorem removeSpecialCommands_idem (x : List Char)
    (h : removeCommandText (removeSpecialCommands x) = removeSpecialCommands x) :
    removeSpecialCommands (removeSpecialCommands x) = removeSpecialCommands x := by
  have hT : hasTriple (removeSpecialCommands x) = false :=
    hasTriple_jsTrim _ (hasTriple_collapseGo (removeCommandText x) 0)
  show jsTrim (collapseNewlines (removeCommandText (removeSpecialCommands x)))
      = removeSpecialCommands x
  rw [h, collapseNewlines_eq_self _ hT]
  exact jsTrim_idem (collapseNewlines (removeCommandText x))

/-- Witness for the amended C5: on `"a!etapa:x\n\n\n\nb"` the stripped form
`"a\n\nb"` contains no directive, and stripping twice equals stripping once. -/
theorem removeSpecialCommands_idem_witness :
    removeSpecialCommands (removeSpecialCommands (lit "a!etapa:x\n\n\n\nb"))
      = removeSpecialCommands (lit "a!etapa:x\n\n\n\nb") :=
  removeSpecialCommands_idem (lit "a!etapa:x\n\n\n\nb") (by decide)

/-! ## Theorems for claim C6 -/

/-- `extractAux` on the empty text. -/
theorem extractAux_nil (f : Nat) : extractAux f [] = [] := by
  cases f <;> rfl

/-- A case-insensitive pattern consumes exactly a casing of itself. -/
theorem matchCI_append (nm : List Char) : ∀ (p suffix : List Char),
    nm.map asciiLower = p → matchCI p (nm ++ suffix) = some suffix := by
  induction nm with
  | nil =>
    intro p suffix h
    simp at h
    subst h
    rfl
  | cons c nm ih =>
    intro p suffix h
    rw [List.map_cons] at h
    subst h
    rw [List.cons_append, matchCI, if_pos rfl]
    exact ih _ suffix rfl

/-- A pattern fails on a text whose head folds to a different character. -/
theorem matchCI_head_ne (q : Char) (qs : List Char) (c : Char) (cs : List Char)
    (h : asciiLower c ≠ q) : matchCI (q :: qs) (c :: cs) = none := by
  simp [matchCI, h]

/-- The alternation recognises exactly the casings of the four names (the
four names start with pairwise distinct letters, so at most one alternative
can match). -/
theorem matchAnyName_append (name : List Char) (hn : name ∈ commandNames)
    (nm suffix : List Char) (h : nm.map asciiLower = name) :
    matchAnyName (nm ++ suffix) = some (name, suffix) := by
  fin_cases hn
  · rw [matchAnyName, matchCI_append nm _ suffix h]
  · cases nm with
    | nil => simp [lit] at h
    | cons c0 nm' =>
      rw [show lit "checkout" = 'c' :: lit "heckout" from rfl] at h
      rw [List.map_cons] at h
      injection h with h0 h1
      have hfail1 : matchCI (lit "prova_social") ((c0 :: nm') ++ suffix) = none := by
        rw [List.cons_append, show lit "prova_social" = 'p' :: lit "rova_social" from rfl]
        exact matchCI_head_ne _ _ _ _ (by rw [h0]; decide)
      have hok : matchCI (lit "checkout") ((c0 :: nm') ++ suffix) = some suffix := by
        apply matchCI_append
        rw [List.map_cons, h0, h1]
        rfl
      rw [matchAnyName, hfail1, hok]
  · cases nm with
    | nil => simp [lit] at h
    | cons c0 nm' =>
      rw [show lit "etapa" = 'e' :: lit "tapa" from rfl] at h
      rw [List.map_cons] at h
      injection h with h0 h1
      have hfail1 : matchCI (lit "prova_social") ((c0 :: nm') ++ suffix) = none := by
        rw [List.cons_append, show lit "prova_social" = 'p' :: lit "rova_social" from rfl]
        exact matchCI_head_ne _ _ _ _ (by rw [h0]; decide)
      have hfail2 : matchCI (lit "checkout") ((c0 :: nm') ++ suffix) = none := by
        rw [List.cons_append, show lit "checkout" = 'c' :: lit "heckout" from rfl]
        exact matchCI_head_ne _ _ _ _ (by rw [h0]; decide)
      have hok : matchCI (lit "etapa") ((c0 :: nm') ++ suffix) = some suffix := by
        apply matchCI_append
        rw [List.map_cons, h0, h1]
        rfl
      rw [matchAnyName, hfail1, hfail2, hok]
  · cases nm with
    | nil => simp [lit] at h
    | cons c0 nm' =>
      rw [show lit "suporte" = 's' :: lit "uporte" from rfl] at h
      rw [List.map_cons] at h
      injection h with h0 h1
      have hfail1 : matchCI (lit "prova_social") ((c0 :: nm') ++ suffix) = none := by
        rw [List.cons_append, show lit "prova_social" = 'p' :: lit "rova_social" from rfl]
        exact matchCI_head_ne _ _ _ _ (by rw [h0]; decide)
      have hfail2 : matchCI (lit "checkout") ((c0 :: nm') ++ suffix) = none := by
        rw [List.cons_append, show lit "checkout" = 'c' :: lit "heckout" from rfl]
        exact matchCI_head_ne _ _ _ _ (by rw [h0]; decide)
      have hfail3 : matchCI (lit "etapa") ((c0 :: nm') ++ suffix) = none := by
        rw [List.cons_append, show lit "etapa" = 'e' :: lit "tapa" from rfl]
        exact matchCI_head_ne _ _ _ _ (by rw [h0]; decide)
      have hok : matchCI (lit "suporte") ((c0 :: nm') ++ suffix) = some suffix := by
        apply matchCI_append
        rw [List.map_cons, h0, h1]
        rfl
      rw [matchAnyName, hfail1, hfail2, hfail3, hok]

/-- A character of the id class is not whitespace. -/
theorem isIdChar_not_space (c : Char) (h : isIdChar c = true) : isJsSpace c = false := by
  simp [isIdChar] at h
  simp [isJsSpace]
  omega

/-- Characters produced by `takeWhile` satisfy the predicate. -/
theorem mem_takeWhile_pred (p : Char → Bool) (l : List Char) :
    ∀ c ∈ l.takeWhile p, p c = true := by
  intro c hc
  exact List.all_eq_true.mp (show (l.takeWhile p).all p = true from List.all_takeWhile) c hc

/-- `takeWhile` keeps a list all of whose characters satisfy the predicate. -/
theorem takeWhile_all_eq (p : Char → Bool) (l : List Char) (h : ∀ c ∈ l, p c = true) :
    l.takeWhile p = l := by
  induction l with
  | nil => rfl
  | cons a l ih =>
    rw [List.takeWhile_cons_of_pos (h a (List.mem_cons_self a l))]
    rw [ih (fun c hc => h c (List.mem_cons_of_mem a hc))]

/-- The ids captured by the optional group consist of id-class characters. -/
theorem matchIdPart_chars (s idc r : List Char) (h : matchIdPart s = some (idc, r)) :
    ∀ c ∈ idc, isIdChar c = true := by
  match s with
  | [] => simp [matchIdPart] at h
  | c0 :: cs =>
    by_cases hc : c0 = ':'
    · subst hc
      simp only [matchIdPart] at h
      split at h
      · exact absurd h (by simp)
      · simp only [Option.some.injEq, Prod.mk.injEq] at h
        obtain ⟨h1, _⟩ := h
        subst h1
        exact mem_takeWhile_pred _ _
    · rw [show matchIdPart (c0 :: cs) = none from by
        unfold matchIdPart
        split
        next heq => rw [List.cons.injEq] at heq; exact absurd heq.1 hc
        next => rfl] at h
      exact absurd h (by simp)

/-- Every extracted name is one of the four command names. -/
theorem matchAnyName_mem (s : List Char) (name r : List Char)
    (h : matchAnyName s = some (name, r)) : name ∈ commandNames := by
  unfold matchAnyName at h
  repeat' split at h
  all_goals simp_all [commandNames]

/-- Text without `'!'` yields no directives. -/
theorem extractAux_no_bang : ∀ (s : List Char) (f : Nat), '!' ∉ s → extractAux f s = [] := by
  intro s
  induction s with
  | nil => intro f _; exact extractAux_nil f
  | cons c cs ih =>
    intro f h
    have hc : c ≠ '!' := fun hcc => h (hcc ▸ List.mem_cons_self c cs)
    cases f with
    | zero => rfl
    | succ f =>
      rw [extractAux, if_neg hc]
      exact ih f (fun hm => h (List.mem_cons_of_mem c hm))

/-- Everything `extractAux` extracts is a well-formed directive: a command
name with an id of id-class characters. -/
theorem extractAux_sound : ∀ (f : Nat) (s : List Char) (pr : List Char × List Char),
    pr ∈ extractAux f s → pr.1 ∈ commandNames ∧ ∀ c ∈ pr.2, isIdChar c = true := by
  intro f
  induction f with
  | zero => intro s pr h; rw [extractAux] at h; simp at h
  | succ f ih =>
    intro s pr h
    match s with
    | [] => rw [extractAux] at h; simp at h
    | c :: cs =>
      rw [extractAux] at h
      by_cases hc : c = '!'
      · rw [if_pos hc] at h
        rcases hmn : matchAnyName cs with _ | ⟨name, r1⟩
        · rw [hmn] at h
          exact ih cs pr h
        · rw [hmn] at h
          dsimp only at h
          rcases hmp : matchIdPart r1 with _ | ⟨idc, r2⟩
          · rw [hmp] at h
            rcases List.mem_cons.mp h with heq | hmem
            · subst heq
              exact ⟨matchAnyName_mem cs name r1 hmn, by simp⟩
            · exact ih r1 pr hmem
          · rw [hmp] at h
            rcases List.mem_cons.mp h with heq | hmem
            · subst heq
              exact ⟨matchAnyName_mem cs name r1 hmn, matchIdPart_chars r1 idc r2 hmp⟩
            · exact ih r2 pr hmem
      · rw [if_neg hc] at h
        exact ih cs pr h

/-- Counterexample to C6 as stated: the claimed names `social_proof`, `stage`
and `support` are not extracted (the regex names are `prova_social`, `etapa`,
`suporte`), while a colon followed by whitespace, and an uppercase id, are
accepted — both outside the claimed syntax. -/
theorem extractSpecialCommands_wire_cex :
    extractSpecialCommands (lit "!social_proof") = []
    ∧ extractSpecialCommands (lit "!stage:closing") = []
    ∧ extractSpecialCommands (lit "!support") = []
    ∧ extractSpecialCommands (lit "!checkout: abc") = [(lit "checkout", lit "abc")]
    ∧ extractSpecialCommands (lit "!checkout:ABC") = [(lit "checkout", lit "ABC")] := by
  decide

/-- C6 (amended): the wire format is `!<name>` or `!<name>:<ws><id>` with
`<name>` a casing of one of prova_social, checkout, etapa, suporte, `<ws>`
possibly-empty whitespace and `<id>` matching `[a-z0-9_-]+` case-insensitively.
Every string of exactly this shape is extracted as the single directive
`(lowercased name, id)` (id empty when absent); text without `'!'` yields no
directive; and everything extracted carries one of the four names and an
id-class id. -/
theorem extractSpecialCommands_wire :
    (∀ name ∈ commandNames, ∀ nm : List Char, nm.map asciiLower = name →
        extractSpecialCommands ('!' :: nm) = [(name, [])])
    ∧ (∀ name ∈ commandNames, ∀ nm w idc : List Char, nm.map asciiLower = name →
        (∀ c ∈ w, isJsSpace c = true) → idc ≠ [] → (∀ c ∈ idc, isIdChar c = true) →
        extractSpecialCommands ('!' :: (nm ++ ':' :: (w ++ idc))) = [(name, idc)])
    ∧ (∀ s : List Char, '!' ∉ s → extractSpecialCommands s = [])
    ∧ (∀ s : List Char, ∀ pr ∈ extractSpecialCommands s,
        pr.1 ∈ commandNames ∧ ∀ c ∈ pr.2, isIdChar c = true) := by
  refine ⟨?_, ?_, ?_, ?_⟩
  · intro name hn nm h
    show extractAux ('!' :: nm).length ('!' :: nm) = [(name, [])]
    have hm := matchAnyName_append name hn nm [] h
    rw [List.append_nil] at hm
    rw [List.length_cons, extractAux, if_pos rfl, hm]
    simp [matchIdPart, extractAux_nil]
  · intro name hn nm w idc h hw hne hid
    show extractAux ('!' :: (nm ++ ':' :: (w ++ idc))).length
        ('!' :: (nm ++ ':' :: (w ++ idc))) = [(name, idc)]
    have hm := matchAnyName_append name hn nm (':' :: (w ++ idc)) h
    rw [List.length_cons, extractAux, if_pos rfl, hm]
    have hdw : (w ++ idc).dropWhile isJsSpace = idc := by
      rw [List.dropWhile_append_of_pos hw]
      cases idc with
      | nil => rfl
      | cons i ir =>
        exact List.dropWhile_cons_of_neg (by
          simp [isIdChar_not_space i (hid i (List.mem_cons_self i ir))])
    have htw : idc.takeWhile isIdChar = idc := takeWhile_all_eq _ _ hid
    simp only [matchIdPart, hdw, htw, if_neg hne, List.drop_length]
    simp [extractAux_nil]
  · intro s hs
    exact extractAux_no_bang s s.length hs
  · intro s pr h
    exact extractAux_sound s.length s pr h

/-- Witness for the amended C6: the cased directive `"!EtApA: x-1"` is
extracted as `(etapa, x-1)`. -/
theorem extractSpecialCommands_wire_witness :
    extractSpecialCommands (lit "!EtApA: x-1") = [(lit "etapa", lit "x-1")] :=
  extractSpecialCommands_wire.2.1 (lit "etapa") (by decide) (lit "EtApA") (lit " ")
    (lit "x-1") (by decide) (by decide) (by decide) (by decide)

end SalesAgent
